import Mathlib

/-!
Verification of the line-follow core in `picarx/lfs.py`.

Python floats are modelled as exact rationals (`ℚ`), Python `int` values as `ℤ`.
Each stateful class becomes a configuration structure, a state structure and a
pure step function; the driving loop becomes an explicit fold over input lists.
Source constants `1e-6`, `1e-9` and the `1e-3` slew floor are carried verbatim.
-/

namespace LFS

/-- Line-presence mode reported by the interpreter: `"track"` or `"lost"`. -/
inductive Mode
  | track
  | lost
deriving DecidableEq

/-- Interpreter polarity: `"dark"` or `"light"`. -/
inductive Polarity
  | dark
  | light
deriving DecidableEq

/-- One 3-channel reading (channel 0 = leftmost sensor). -/
structure Triple where
  c0 : ℚ
  c1 : ℚ
  c2 : ℚ
deriving DecidableEq

/-- `clamp` from lfs.py line 15: `max(lo, min(hi, x))`. -/
def clamp (x lo hi : ℚ) : ℚ := max lo (min hi x)

/-- Integer variant of `clamp`, used where Python clamps an `int`. -/
def clampZ (x lo hi : ℤ) : ℤ := max lo (min hi x)

/-- Python `int(v)` on a float: truncation toward zero. -/
def truncQ (q : ℚ) : ℤ := if q < 0 then ⌈q⌉ else ⌊q⌋

/-- The literal `1e-6` from lfs.py line 107. -/
def eps6 : ℚ := 1 / 1000000

/-- The literal `1e-9` from lfs.py line 111. -/
def eps9 : ℚ := 1 / 1000000000

/-- The literal `1e-3` slew-period floor from lfs.py line 172. -/
def dtFloor : ℚ := 1 / 1000

/-- Python float `%`: `t % p = t - p * floor (t / p)` (sign of the divisor). -/
def qmod (t p : ℚ) : ℚ := t - p * ⌊t / p⌋

/-! ## Sensor (lfs.py lines 19-43) -/

/-- `Sensor.__init__` configuration: oversample count and EMA factor. -/
structure SensorCfg where
  oversample : ℕ
  ema_alpha : ℚ
deriving DecidableEq

/-- Channel-wise sum of a batch of raw triples (the `acc` loop, lines 30-34). -/
def batchSum : List Triple → Triple
  | [] => ⟨0, 0, 0⟩
  | r :: rs =>
    let s := batchSum rs
    ⟨s.c0 + r.c0, s.c1 + r.c1, s.c2 + r.c2⟩

/-- `avg = [v / self.oversample for v in acc]` (line 35). -/
def batchAvg (n : ℕ) (batch : List Triple) : Triple :=
  let acc := batchSum batch
  ⟨acc.c0 / n, acc.c1 / n, acc.c2 / n⟩

/-- One channel-wise EMA update `(1-a)*ema + a*avg` (line 41). -/
def emaStep (a : ℚ) (e v : Triple) : Triple :=
  ⟨(1 - a) * e.c0 + a * v.c0, (1 - a) * e.c1 + a * v.c1, (1 - a) * e.c2 + a * v.c2⟩

/-- `[int(v) for v in self._ema]` (line 43). -/
def truncTriple (e : Triple) : ℤ × ℤ × ℤ := (truncQ e.c0, truncQ e.c1, truncQ e.c2)

/-- `Sensor.read` (lines 29-43): the oversampled batch of raw triples is the
input; the internal EMA state (`self._ema`, `None` before the first call) is
threaded explicitly. -/
def Sensor.read (cfg : SensorCfg) (st : Option Triple) (batch : List Triple) :
    (ℤ × ℤ × ℤ) × Option Triple :=
  let avg := batchAvg cfg.oversample batch
  let ema :=
    match st with
    | none => avg
    | some e => emaStep cfg.ema_alpha e avg
  (truncTriple ema, some ema)

/-- A sequence of `Sensor.read` calls, one per batch. -/
def Sensor.run (cfg : SensorCfg) (st : Option Triple) :
    List (List Triple) → List (ℤ × ℤ × ℤ) × Option Triple
  | [] => ([], st)
  | b :: bs =>
    let step := Sensor.read cfg st b
    let rest := Sensor.run cfg step.2 bs
    (step.1 :: rest.1, rest.2)

/-- Modelled from the spec: the exact exponentially weighted history of the
per-call batch averages — seeded with the first average, then
`ema = (1-a)*ema + a*avg` — listing the exact (un-rounded) EMA value after
each call. -/
def emaHist (a : ℚ) : Option Triple → List Triple → List Triple
  | _, [] => []
  | none, v :: vs => v :: emaHist a (some v) vs
  | some e, v :: vs => emaStep a e v :: emaHist a (some (emaStep a e v)) vs

/-- Modelled from the spec: the internal EMA state left after feeding the
listed batch averages, starting from state `st`. -/
def emaFinal (a : ℚ) (st : Option Triple) : List Triple → Option Triple
  | [] => st
  | v :: vs =>
    match st with
    | none => emaFinal a (some v) vs
    | some e => emaFinal a (some (emaStep a e v)) vs

/-! ## Interpreter (lfs.py lines 46-124) -/

/-- `Interpreter.__init__` configuration. -/
structure InterpCfg where
  polarity : Polarity
  deadband : ℚ
  contrast_on : ℚ
  contrast_off : ℚ
  offset_alpha : ℚ
deriving DecidableEq

/-- Mutable interpreter state: `self._tracking` and `self._offset_ema`. -/
structure InterpState where
  tracking : Bool
  offsetEma : ℚ
deriving DecidableEq

/-- `contrast = max(x0, x1, x2) - min(x0, x1, x2)` (line 78). -/
def contrastOf (r : Triple) : ℚ :=
  max r.c0 (max r.c1 r.c2) - min r.c0 (min r.c1 r.c2)

/-- `mu = (x0 + x1 + x2) / 3.0` (line 95). -/
def muOf (r : Triple) : ℚ := (r.c0 + r.c1 + r.c2) / 3

/-- Per-channel score (lines 99-102): deviation, sign-flipped for dark lines. -/
def scoreOf (p : Polarity) (d : ℚ) : ℚ :=
  match p with
  | .dark => -d
  | .light => d

/-- `w = [max(0.0, s) for s in score]` (line 105). -/
def weightsOf (p : Polarity) (r : Triple) : ℚ × ℚ × ℚ :=
  (max 0 (scoreOf p (r.c0 - muOf r)),
   max 0 (scoreOf p (r.c1 - muOf r)),
   max 0 (scoreOf p (r.c2 - muOf r)))

/-- `ssum = w[0] + w[1] + w[2]` (line 106). -/
def ssumOf (p : Polarity) (r : Triple) : ℚ :=
  (weightsOf p r).1 + (weightsOf p r).2.1 + (weightsOf p r).2.2

/-- The deadband snap (lines 115-116 and 121-122). -/
def applyDeadband (d x : ℚ) : ℚ := if |x| < d then 0 else x

/-- The hysteresis update of `self._tracking` (lines 84-89). -/
def hystStep (cfg : InterpCfg) (tracking : Bool) (contrast : ℚ) : Bool :=
  match tracking with
  | true => if contrast < cfg.contrast_off then false else true
  | false => if cfg.contrast_on ≤ contrast then true else false

/-- `Interpreter.process` (lines 76-124), returning `((offset, conf, mode),
new state)`. -/
def Interpreter.process (cfg : InterpCfg) (s : InterpState) (r : Triple) :
    (ℚ × ℚ × Mode) × InterpState :=
  let contrast := contrastOf r
  let conf := clamp ((contrast - cfg.contrast_off) / (cfg.contrast_on - cfg.contrast_off)) 0 1
  let tracking := hystStep cfg s.tracking contrast
  if tracking = false then
    ((s.offsetEma, conf, Mode.lost), ⟨false, s.offsetEma⟩)
  else if ssumOf cfg.polarity r < eps6 then
    ((s.offsetEma, conf, Mode.lost), ⟨false, s.offsetEma⟩)
  else
    let w := weightsOf cfg.polarity r
    let offset0 := (w.1 * 1 + w.2.1 * 0 + w.2.2 * (-1)) / (ssumOf cfg.polarity r + eps9)
    let offset1 := clamp offset0 (-1) 1
    let offset2 := applyDeadband cfg.deadband offset1
    let ema0 := (1 - cfg.offset_alpha) * s.offsetEma + cfg.offset_alpha * offset2
    let ema1 := applyDeadband cfg.deadband ema0
    ((ema1, conf, Mode.track), ⟨true, ema1⟩)

/-- A sequence of `Interpreter.process` calls. -/
def Interpreter.processRun (cfg : InterpCfg) (s : InterpState) :
    List Triple → List (ℚ × ℚ × Mode) × InterpState
  | [] => ([], s)
  | r :: rs =>
    let step := Interpreter.process cfg s r
    let rest := Interpreter.processRun cfg step.2 rs
    (step.1 :: rest.1, rest.2)

/-- The defaults of `Interpreter.__init__` as instantiated in `main`
(lines 54-61 and 256). -/
def defaultInterpCfg : InterpCfg :=
  { polarity := Polarity.dark
    deadband := 6/100
    contrast_on := 90
    contrast_off := 55
    offset_alpha := 7/20 }

/-- Interpreter state at construction: not tracking, offset EMA `0.0`. -/
def initInterpState : InterpState := ⟨false, 0⟩

/-! ## Controller (lfs.py lines 127-220) -/

/-- `Controller.__init__` configuration (the `car` handle is external). -/
structure CtrlCfg where
  kp_deg : ℚ
  max_deg : ℚ
  base_speed : ℤ
  min_speed : ℤ
  speed_scale : ℚ
  search_speed : ℤ
  search_max_deg : ℚ
  search_period_s : ℚ
  hold_last_s : ℚ
  max_slew : ℚ
  angle_alpha : ℚ
deriving DecidableEq

/-- Mutable controller state: `self._prev_angle`, `self._last_offset`,
`self._lost_since`. -/
structure CtrlState where
  prevAngle : ℚ
  lastOffset : ℚ
  lostSince : Option ℚ
deriving DecidableEq

/-- `Controller.__init__` defaults (lines 134-147; `max_deg` falls back to the
car's `DIR_MAX` default 30). -/
def defaultCtrlCfg : CtrlCfg :=
  { kp_deg := 16
    max_deg := 30
    base_speed := 35
    min_speed := 30
    speed_scale := 1/2
    search_speed := 32
    search_max_deg := 22
    search_period_s := 6/5
    hold_last_s := 7/20
    max_slew := 120
    angle_alpha := 7/20 }

/-- Controller state at construction: angle `0.0`, last offset `0.0`, not lost. -/
def initCtrlState : CtrlState := ⟨0, 0, none⟩

/-- `Controller._slew_and_smooth` (lines 169-181) without the state write:
clamp the target, rate-limit the step from `prev`, then blend with `prev`. -/
def Controller.slew_and_smooth (cfg : CtrlCfg) (prev target dt : ℚ) : ℚ :=
  let t := clamp target (-cfg.max_deg) cfg.max_deg
  let maxDelta := cfg.max_slew * max dtFloor dt
  let delta := clamp (t - prev) (-maxDelta) maxDelta
  let limited := prev + delta
  (1 - cfg.angle_alpha) * prev + cfg.angle_alpha * limited

/-- `sign` of the last offset (line 198). -/
def signOf (x : ℚ) : ℚ := if 0 < x then 1 else if x < 0 then -1 else 0

/-- The lost-mode target before rate limiting and smoothing (lines 197-207):
hold toward the last-known side inside the `hold_last_s` window, else a
triangle sweep of amplitude `search_max_deg` over period
`max(0.4, search_period_s)` plus a bias of `3.0` toward the last side. -/
def Controller.searchTarget (cfg : CtrlCfg) (sgn t : ℚ) : ℚ :=
  if t < cfg.hold_last_s ∧ sgn ≠ 0 then
    sgn * (3/5 * cfg.search_max_deg)
  else
    let A := cfg.search_max_deg
    let P := max (2/5) cfg.search_period_s
    let phase := qmod t P / P
    let tri := if phase < 1/2 then 4 * phase - 1 else -4 * phase + 3
    A * tri + sgn * 3

/-- The track-mode target before rate limiting and smoothing (line 187). -/
def Controller.trackTarget (cfg : CtrlCfg) (offset : ℚ) : ℚ := cfg.kp_deg * offset

/-- `Controller.steer_angle` (lines 183-209). `time.time()` is passed in as
`tnow`; the returned pair is the commanded angle and the new state. -/
def Controller.steer_angle (cfg : CtrlCfg) (s : CtrlState) (offset conf : ℚ)
    (mode : Mode) (dt tnow : ℚ) : ℚ × CtrlState :=
  match mode with
  | Mode.track =>
    let angle := Controller.slew_and_smooth cfg s.prevAngle (Controller.trackTarget cfg offset) dt
    (angle, ⟨angle, offset, none⟩)
  | Mode.lost =>
    let since := s.lostSince.getD tnow
    let t := tnow - since
    let sgn := signOf s.lastOffset
    let angle := Controller.slew_and_smooth cfg s.prevAngle (Controller.searchTarget cfg sgn t) dt
    (angle, ⟨angle, s.lastOffset, some since⟩)

/-- `Controller.speed_cmd` (lines 211-220). -/
def Controller.speed_cmd (cfg : CtrlCfg) (offset conf : ℚ) (mode : Mode) : ℤ :=
  match mode with
  | Mode.lost => cfg.search_speed
  | Mode.track =>
    let offTerm := min 1 |offset|
    let confTerm := 1 - clamp conf 0 1
    let scale := 1 - cfg.speed_scale * max offTerm confTerm
    let s := truncQ ((cfg.base_speed : ℚ) * scale)
    clampZ s cfg.min_speed 100

/-- One estimate handed to the controller: `(offset, conf, mode)`. -/
structure Estimate where
  offset : ℚ
  conf : ℚ
  mode : Mode
deriving DecidableEq

/-- A sequence of `Controller.steer_angle` calls; each list element carries the
estimate, the tick period `dt` and the wall-clock time of the call. -/
def Controller.run (cfg : CtrlCfg) (s : CtrlState) :
    List (Estimate × ℚ × ℚ) → List ℚ × CtrlState
  | [] => ([], s)
  | (e, dt, tnow) :: rest =>
    let step := Controller.steer_angle cfg s e.offset e.conf e.mode dt tnow
    let tail := Controller.run cfg step.2 rest
    (step.1 :: tail.1, tail.2)

/-! ## Definitions following the spec's words, for refinement comparison -/

/-- Modelled from the spec: the Track-mode PD steering law
`Kp*offset + Kd*(offset - previous_offset)/dt`, clamped to the maximum angle. -/
def specPDTarget (kp kd offset prevOffset dt maxAngle : ℚ) : ℚ :=
  clamp (kp * offset + kd * (offset - prevOffset) / dt) (-maxAngle) maxAngle

/-- Modelled from the spec: the Track-mode speed
`base_speed * (1 - speed_scale * max(|offset| capped at 1, 1 - confidence))`
clamped to `[min_speed, 100]`, with no integer truncation. -/
def specTrackSpeed (cfg : CtrlCfg) (offset conf : ℚ) : ℚ :=
  clamp ((cfg.base_speed : ℚ) *
      (1 - cfg.speed_scale * max (min 1 |offset|) (1 - clamp conf 0 1)))
    (cfg.min_speed : ℚ) 100

/-! ## Claim C1: Track-mode steering target -/

/-- Claim C1, amended: the code has no derivative gain, so the Track-mode
steering target before rate limiting and smoothing equals the spec's PD law
only with `Kd = 0`: for every offset, previous offset and `dt`, the clamped
code target `clamp(Kp*offset, ±max_deg)` equals
`clamp(Kp*offset + 0*(offset-prev)/dt, ±max_deg)`. -/
theorem c1_track_target_p_only (cfg : CtrlCfg) (offset prevOffset dt : ℚ) :
    clamp (Controller.trackTarget cfg offset) (-cfg.max_deg) cfg.max_deg =
      specPDTarget cfg.kp_deg 0 offset prevOffset dt cfg.max_deg := by
  simp [Controller.trackTarget, specPDTarget]

/-- Claim C1, counterexample: with any genuine derivative term (here `Kd = 1`)
the spec's PD law disagrees with the code's pre-rate-limit target at
`offset = 1`, `previous_offset = 0`, `dt = 1` under the constructor
defaults: the PD law gives `17`, the code gives `16`. -/
theorem c1_pd_counterexample :
    specPDTarget defaultCtrlCfg.kp_deg 1 1 0 1 defaultCtrlCfg.max_deg ≠
      clamp (Controller.trackTarget defaultCtrlCfg 1)
        (-defaultCtrlCfg.max_deg) defaultCtrlCfg.max_deg := by
  norm_num [specPDTarget, Controller.trackTarget, defaultCtrlCfg, clamp]

/-! ## Claim C10: Sensor oversample + EMA -/

/-- Claim C10: each `Sensor.read` call averages the oversampled batch
channel-wise, seeds the EMA state with that average on the first call and
updates it as `(1-alpha)*ema + alpha*avg` afterwards; the returned triples are
the truncations of the exact EMA values while the retained internal state is
the exact (un-rounded) exponentially weighted history of all prior batch
averages. -/
theorem c10_sensor_ema (cfg : SensorCfg) (st : Option Triple) (bs : List (List Triple)) :
    Sensor.run cfg st bs =
      ((emaHist cfg.ema_alpha st (bs.map (batchAvg cfg.oversample))).map truncTriple,
        emaFinal cfg.ema_alpha st (bs.map (batchAvg cfg.oversample))) := by
  induction bs generalizing st with
  | nil => cases st <;> rfl
  | cons b rest ih =>
    cases st with
    | none =>
      simp only [Sensor.run, Sensor.read, List.map_cons, emaHist, emaFinal, ih]
    | some e =>
      simp only [Sensor.run, Sensor.read, List.map_cons, emaHist, emaFinal, ih]

/-! ## Slew-rate and smoothing lemmas (shared by C3 and C9) -/

/-- The change `_slew_and_smooth` makes to the previous angle is the smoothing
factor times the rate-limited delta. -/
lemma slew_sub_prev (cfg : CtrlCfg) (prev target dt : ℚ) :
    Controller.slew_and_smooth cfg prev target dt - prev =
      cfg.angle_alpha * clamp (clamp target (-cfg.max_deg) cfg.max_deg - prev)
        (-(cfg.max_slew * max dtFloor dt)) (cfg.max_slew * max dtFloor dt) := by
  simp only [Controller.slew_and_smooth]
  ring

/-- A value clamped to a symmetric interval `[-M, M]` with `0 ≤ M` has
magnitude at most `M`. -/
lemma abs_clamp_le (x M : ℚ) (hM : 0 ≤ M) : |clamp x (-M) M| ≤ M := by
  rw [abs_le]
  exact ⟨le_max_left _ _, max_le (by linarith) (min_le_left _ _)⟩

/-- The rate-limit window `max_slew * max(1e-3, dt)` is nonnegative. -/
lemma slew_window_nonneg (cfg : CtrlCfg) (dt : ℚ) (hs : 0 ≤ cfg.max_slew) :
    0 ≤ cfg.max_slew * max dtFloor dt :=
  mul_nonneg hs (le_trans (by norm_num [dtFloor]) (le_max_left _ _))

/-- Claim C3, amended: for every controller state, estimate and period `dt`
(any sign), consecutive commanded angles differ by at most
`max_slew_deg_per_s * max(1e-3, dt)` — i.e. the spec's bound with `dt` floored
at the code's `1e-3` and with no extra slack needed for the smoothing blend,
which only shrinks the step. For `dt ≥ 1e-3` this is exactly
`max_slew_deg_per_s * dt`. -/
theorem c3_slew_bound (cfg : CtrlCfg) (s : CtrlState) (offset conf : ℚ) (mode : Mode)
    (dt tnow : ℚ) (ha0 : 0 ≤ cfg.angle_alpha) (ha1 : cfg.angle_alpha ≤ 1)
    (hs : 0 ≤ cfg.max_slew) :
    |(Controller.steer_angle cfg s offset conf mode dt tnow).1 - s.prevAngle| ≤
      cfg.max_slew * max dtFloor dt := by
  have hM := slew_window_nonneg cfg dt hs
  have key : ∀ target : ℚ,
      |Controller.slew_and_smooth cfg s.prevAngle target dt - s.prevAngle| ≤
        cfg.max_slew * max dtFloor dt := by
    intro target
    rw [slew_sub_prev, abs_mul, abs_of_nonneg ha0]
    have h1 := abs_clamp_le (clamp target (-cfg.max_deg) cfg.max_deg - s.prevAngle)
      (cfg.max_slew * max dtFloor dt) hM
    calc cfg.angle_alpha *
        |clamp (clamp target (-cfg.max_deg) cfg.max_deg - s.prevAngle)
          (-(cfg.max_slew * max dtFloor dt)) (cfg.max_slew * max dtFloor dt)| ≤
        1 * (cfg.max_slew * max dtFloor dt) :=
          mul_le_mul ha1 h1 (abs_nonneg _) zero_le_one
      _ = cfg.max_slew * max dtFloor dt := one_mul _
  cases mode <;> simpa only [Controller.steer_angle] using key _

/-- Witness for C3 at the constructor defaults, the initial state, a Track
estimate and the loop's `dt = 0.08`. -/
theorem c3_slew_bound_witness :
    |(Controller.steer_angle defaultCtrlCfg initCtrlState 1 1 Mode.track (2/25) 0).1 -
        initCtrlState.prevAngle| ≤
      defaultCtrlCfg.max_slew * max dtFloor (2/25) :=
  c3_slew_bound defaultCtrlCfg initCtrlState 1 1 Mode.track (2/25) 0
    (by norm_num [defaultCtrlCfg]) (by norm_num [defaultCtrlCfg])
    (by norm_num [defaultCtrlCfg])

/-- Claim C3, counterexample: at `dt = 1e-4 > 0` the code's `1e-3` floor on the
slew window lets the commanded angle move by `0.042` in one tick, exceeding
`max_slew_deg_per_s * dt = 0.012`; the smoothing blend only contracts the step,
so no slack attributable to it can absorb the excess. -/
theorem c3_dt_floor_counterexample :
    (0 : ℚ) < 1/10000 ∧
      defaultCtrlCfg.max_slew * (1/10000) <
        |(Controller.steer_angle defaultCtrlCfg initCtrlState 1 1 Mode.track (1/10000) 0).1 -
          initCtrlState.prevAngle| := by
  constructor
  · norm_num
  · norm_num [Controller.steer_angle, Controller.slew_and_smooth, Controller.trackTarget,
      defaultCtrlCfg, initCtrlState, clamp, dtFloor, max_def, min_def, abs]

/-! ## Claim C9: angle boundedness invariant -/

/-- `_slew_and_smooth` keeps the angle inside `[-max_deg, max_deg]` whenever
the previous angle is inside it: the clamped target lies in the interval, the
rate-limited value lies between the previous angle and the clamped target, and
the blend is a convex combination. -/
lemma slew_abs_bound (cfg : CtrlCfg) (prev target dt : ℚ)
    (ha0 : 0 ≤ cfg.angle_alpha) (ha1 : cfg.angle_alpha ≤ 1) (hs : 0 ≤ cfg.max_slew)
    (hp : |prev| ≤ cfg.max_deg) :
    |Controller.slew_and_smooth cfg prev target dt| ≤ cfg.max_deg := by
  obtain ⟨hp1, hp2⟩ := abs_le.1 hp
  have hm : 0 ≤ cfg.max_deg := le_trans (abs_nonneg _) hp
  have hM := slew_window_nonneg cfg dt hs
  simp only [Controller.slew_and_smooth]
  set t := clamp target (-cfg.max_deg) cfg.max_deg with ht
  have ht1 : -cfg.max_deg ≤ t := le_max_left _ _
  have ht2 : t ≤ cfg.max_deg := max_le (by linarith) (min_le_left _ _)
  set M := cfg.max_slew * max dtFloor dt with hMdef
  have hlim : -cfg.max_deg ≤ prev + clamp (t - prev) (-M) M ∧
      prev + clamp (t - prev) (-M) M ≤ cfg.max_deg := by
    rcases le_total 0 (t - prev) with h0 | h0
    · have c1 : clamp (t - prev) (-M) M ≤ t - prev :=
        max_le (by linarith) (min_le_right _ _)
      have c2 : 0 ≤ clamp (t - prev) (-M) M :=
        le_max_of_le_right (le_min hM h0)
      exact ⟨by linarith, by linarith⟩
    · have c1 : t - prev ≤ clamp (t - prev) (-M) M := by
        have : min M (t - prev) = t - prev := min_eq_right (le_trans h0 hM)
        rw [clamp, this]
        exact le_max_right _ _
      have c2 : clamp (t - prev) (-M) M ≤ 0 :=
        max_le (by linarith) (le_trans (min_le_right _ _) h0)
      exact ⟨by linarith, by linarith⟩
  rw [abs_le]
  constructor
  · nlinarith [mul_le_mul_of_nonneg_left hp1 (by linarith : (0:ℚ) ≤ 1 - cfg.angle_alpha),
      mul_le_mul_of_nonneg_left hlim.1 ha0]
  · nlinarith [mul_le_mul_of_nonneg_left hp2 (by linarith : (0:ℚ) ≤ 1 - cfg.angle_alpha),
      mul_le_mul_of_nonneg_left hlim.2 ha0]

/-- One `steer_angle` call keeps the commanded angle bounded and stores it as
the new previous angle, in both modes. -/
lemma steer_angle_step (cfg : CtrlCfg) (s : CtrlState) (offset conf : ℚ) (mode : Mode)
    (dt tnow : ℚ) (ha0 : 0 ≤ cfg.angle_alpha) (ha1 : cfg.angle_alpha ≤ 1)
    (hs : 0 ≤ cfg.max_slew) (hp : |s.prevAngle| ≤ cfg.max_deg) :
    |(Controller.steer_angle cfg s offset conf mode dt tnow).1| ≤ cfg.max_deg ∧
      (Controller.steer_angle cfg s offset conf mode dt tnow).2.prevAngle =
        (Controller.steer_angle cfg s offset conf mode dt tnow).1 := by
  cases mode <;>
    exact ⟨slew_abs_bound cfg _ _ dt ha0 ha1 hs hp, rfl⟩

/-- Claim C9: for every sequence of estimates and tick periods, every
commanded steering angle — Track PD, hold-last and triangle-sweep targets
alike — has magnitude at most `max_deg`, and the stored previous angle keeps
the invariant `|previous_angle| ≤ max_deg` (satisfied by its initial value 0). -/
theorem c9_angle_invariant (cfg : CtrlCfg) (s : CtrlState)
    (inputs : List (Estimate × ℚ × ℚ))
    (ha0 : 0 ≤ cfg.angle_alpha) (ha1 : cfg.angle_alpha ≤ 1) (hs : 0 ≤ cfg.max_slew)
    (hp : |s.prevAngle| ≤ cfg.max_deg) :
    (∀ a ∈ (Controller.run cfg s inputs).1, |a| ≤ cfg.max_deg) ∧
      |(Controller.run cfg s inputs).2.prevAngle| ≤ cfg.max_deg := by
  induction inputs generalizing s with
  | nil =>
    refine ⟨?_, by simpa [Controller.run] using hp⟩
    intro a ha
    simp [Controller.run] at ha
  | cons i rest ih =>
    obtain ⟨e, dt, tnow⟩ := i
    have hstep := steer_angle_step cfg s e.offset e.conf e.mode dt tnow ha0 ha1 hs hp
    have hp1 : |(Controller.steer_angle cfg s e.offset e.conf e.mode dt tnow).2.prevAngle| ≤
        cfg.max_deg := by
      rw [hstep.2]
      exact hstep.1
    have ihr := ih _ hp1
    simp only [Controller.run]
    refine ⟨?_, ihr.2⟩
    intro a ha
    rcases List.mem_cons.1 ha with h | h
    · rw [h]
      exact hstep.1
    · exact ihr.1 a h

/-- Witness for C9: defaults, initial state, one Track tick then one Lost tick
at the loop cadence. -/
theorem c9_angle_invariant_witness :
    (∀ a ∈ (Controller.run defaultCtrlCfg initCtrlState
        [(⟨1, 1, Mode.track⟩, 2/25, 0), (⟨0, 1, Mode.lost⟩, 2/25, 1)]).1,
      |a| ≤ defaultCtrlCfg.max_deg) ∧
      |(Controller.run defaultCtrlCfg initCtrlState
        [(⟨1, 1, Mode.track⟩, 2/25, 0), (⟨0, 1, Mode.lost⟩, 2/25, 1)]).2.prevAngle| ≤
        defaultCtrlCfg.max_deg :=
  c9_angle_invariant defaultCtrlCfg initCtrlState _
    (by norm_num [defaultCtrlCfg]) (by norm_num [defaultCtrlCfg])
    (by norm_num [defaultCtrlCfg]) (by norm_num [initCtrlState, defaultCtrlCfg])

/-! ## Claim C4: search sweep periodicity and bound -/

/-- Python float `%` is periodic in its first argument with period the divisor. -/
lemma qmod_add_right (t p : ℚ) (hp : p ≠ 0) : qmod (t + p) p = qmod t p := by
  unfold qmod
  rw [add_div, div_self hp, Int.floor_add_one]
  push_cast
  ring

/-- The sweep phase `(t % p) / p` is the fractional part of `t / p`. -/
lemma qmod_div_eq_fract (t p : ℚ) (hp : p ≠ 0) : qmod t p / p = Int.fract (t / p) := by
  unfold qmod Int.fract
  rw [sub_div, mul_div_cancel_left₀ _ hp]

/-- Claim C4, amended: past the hold-last window the unblended search target is
periodic with period `max(0.4, search_period_s)` — the code floors the period
at `0.4 s`, so the period is exactly `search_period_s` only when
`search_period_s ≥ 0.4` — and is bounded in magnitude by
`search_max_deg + 3` (the last-side bias constant `3.0`). -/
theorem c4_search_sweep (cfg : CtrlCfg) (sgn t : ℚ)
    (hA : 0 ≤ cfg.search_max_deg) (hsgn : |sgn| ≤ 1) (ht : cfg.hold_last_s ≤ t) :
    Controller.searchTarget cfg sgn (t + max (2/5) cfg.search_period_s) =
      Controller.searchTarget cfg sgn t ∧
    |Controller.searchTarget cfg sgn t| ≤ cfg.search_max_deg + 3 := by
  have hP : (0:ℚ) < max (2/5) cfg.search_period_s :=
    lt_of_lt_of_le (by norm_num) (le_max_left _ _)
  have hcond : ¬ (t < cfg.hold_last_s ∧ sgn ≠ 0) := fun h => absurd h.1 (not_lt.2 ht)
  have hcond2 : ¬ (t + max (2/5) cfg.search_period_s < cfg.hold_last_s ∧ sgn ≠ 0) := by
    rintro ⟨h, -⟩
    linarith
  constructor
  · simp only [Controller.searchTarget, if_neg hcond, if_neg hcond2,
      qmod_add_right _ _ hP.ne']
  · simp only [Controller.searchTarget, if_neg hcond]
    set P := max (2/5) cfg.search_period_s with hPdef
    set phase := qmod t P / P with hphase
    have hfr : phase = Int.fract (t / P) := qmod_div_eq_fract t P hP.ne'
    have h0 : 0 ≤ phase := hfr ▸ Int.fract_nonneg _
    have h1 : phase < 1 := hfr ▸ Int.fract_lt_one _
    set tri := if phase < 1/2 then 4 * phase - 1 else -4 * phase + 3 with htridef
    have htri : |tri| ≤ 1 := by
      rw [htridef]
      split_ifs with h
      · rw [abs_le]
        constructor <;> linarith
      · push_neg at h
        rw [abs_le]
        constructor <;> linarith
    have e1 : |cfg.search_max_deg * tri| ≤ cfg.search_max_deg :=
      (abs_mul _ _).le.trans (by
        rw [abs_of_nonneg hA]
        nlinarith)
    have e2 : |sgn * 3| ≤ 3 := by
      rw [abs_mul]
      norm_num
      linarith [abs_nonneg sgn]
    calc |cfg.search_max_deg * tri + sgn * 3| ≤
        |cfg.search_max_deg * tri| + |sgn * 3| := abs_add _ _
      _ ≤ cfg.search_max_deg + 3 := add_le_add e1 e2

/-- Witness for C4 at the defaults (`search_period_s = 1.2 ≥ 0.4`), `sgn = 1`,
`t = 0.5` past the `0.35 s` hold window. -/
theorem c4_search_sweep_witness :
    Controller.searchTarget defaultCtrlCfg 1 (1/2 + max (2/5) defaultCtrlCfg.search_period_s) =
      Controller.searchTarget defaultCtrlCfg 1 (1/2) ∧
    |Controller.searchTarget defaultCtrlCfg 1 (1/2)| ≤ defaultCtrlCfg.search_max_deg + 3 :=
  c4_search_sweep defaultCtrlCfg 1 (1/2) (by norm_num [defaultCtrlCfg]) (by norm_num)
    (by norm_num [defaultCtrlCfg])

/-- Claim C4, counterexample: with `search_period_s = 0.2` the code sweeps with
period `max(0.4, 0.2) = 0.4`, not `search_period_s`: past the hold window the
target at `t = 0.4` is `-22` but at `t = 0.4 + 0.2` it is `22`. -/
theorem c4_period_floor_counterexample :
    defaultCtrlCfg.hold_last_s ≤ (2/5 : ℚ) ∧
      Controller.searchTarget { defaultCtrlCfg with search_period_s := 1/5 } 0
          (2/5 + (1/5 : ℚ)) ≠
        Controller.searchTarget { defaultCtrlCfg with search_period_s := 1/5 } 0 (2/5) := by
  constructor
  · norm_num [defaultCtrlCfg]
  · norm_num [Controller.searchTarget, defaultCtrlCfg, qmod, max_def, min_def]

/-! ## Claim C5: speed command -/

/-- An integer clamp to `[lo, hi]` with `lo ≤ hi` lands in `[lo, hi]`. -/
lemma clampZ_bounds (x lo hi : ℤ) (h : lo ≤ hi) :
    lo ≤ clampZ x lo hi ∧ clampZ x lo hi ≤ hi :=
  ⟨le_max_left _ _, max_le h (min_le_left _ _)⟩

/-- Claim C5, amended: in Track mode `speed_cmd` computes the spec's scale
formula but truncates `base_speed * scale` to an integer (Python `int()`)
before clamping to `[min_speed, 100]`; the result stays in `[min_speed, 100]`
whenever `min_speed ≤ 100`, and in Lost mode the command is exactly
`search_speed`. -/
theorem c5_speed_cmd (cfg : CtrlCfg) (offset conf : ℚ) (hms : cfg.min_speed ≤ 100) :
    Controller.speed_cmd cfg offset conf Mode.track =
      clampZ (truncQ ((cfg.base_speed : ℚ) *
          (1 - cfg.speed_scale * max (min 1 |offset|) (1 - clamp conf 0 1))))
        cfg.min_speed 100 ∧
    cfg.min_speed ≤ Controller.speed_cmd cfg offset conf Mode.track ∧
    Controller.speed_cmd cfg offset conf Mode.track ≤ 100 ∧
    Controller.speed_cmd cfg offset conf Mode.lost = cfg.search_speed := by
  have heq : Controller.speed_cmd cfg offset conf Mode.track =
      clampZ (truncQ ((cfg.base_speed : ℚ) *
          (1 - cfg.speed_scale * max (min 1 |offset|) (1 - clamp conf 0 1))))
        cfg.min_speed 100 := rfl
  have hb := clampZ_bounds (truncQ ((cfg.base_speed : ℚ) *
      (1 - cfg.speed_scale * max (min 1 |offset|) (1 - clamp conf 0 1))))
    cfg.min_speed 100 hms
  exact ⟨heq, by rw [heq]; exact hb.1, by rw [heq]; exact hb.2, rfl⟩

/-- Witness for C5 at the defaults with `offset = 0.1`, `conf = 1`. -/
theorem c5_speed_cmd_witness :
    Controller.speed_cmd defaultCtrlCfg (1/10) 1 Mode.track =
      clampZ (truncQ ((defaultCtrlCfg.base_speed : ℚ) *
          (1 - defaultCtrlCfg.speed_scale *
            max (min 1 |(1/10 : ℚ)|) (1 - clamp 1 0 1))))
        defaultCtrlCfg.min_speed 100 ∧
    defaultCtrlCfg.min_speed ≤ Controller.speed_cmd defaultCtrlCfg (1/10) 1 Mode.track ∧
    Controller.speed_cmd defaultCtrlCfg (1/10) 1 Mode.track ≤ 100 ∧
    Controller.speed_cmd defaultCtrlCfg (1/10) 1 Mode.lost = defaultCtrlCfg.search_speed :=
  c5_speed_cmd defaultCtrlCfg (1/10) 1 (by norm_num [defaultCtrlCfg])

/-- Claim C5, counterexample: at the defaults with `offset = 0.1`, `conf = 1`,
the code returns `int(35 * 0.95) = 33` while the claim's un-truncated formula
gives `33.25`. -/
theorem c5_trunc_counterexample :
    ((Controller.speed_cmd defaultCtrlCfg (1/10) 1 Mode.track : ℤ) : ℚ) ≠
      specTrackSpeed defaultCtrlCfg (1/10) 1 := by
  norm_num [Controller.speed_cmd, specTrackSpeed, defaultCtrlCfg, clamp, clampZ, truncQ,
    max_def, min_def, abs]

/-! ## Claim C7: two-stage deadband on the returned offset -/

/-- A deadbanded value is exactly zero or at least `d` in magnitude. -/
lemma applyDeadband_cases (d x : ℚ) :
    applyDeadband d x = 0 ∨ d ≤ |applyDeadband d x| := by
  unfold applyDeadband
  split_ifs with h
  · exact Or.inl rfl
  · exact Or.inr (not_lt.1 h)

/-- Claim C7: whenever `Interpreter.process` returns with mode Track the
returned offset has been deadbanded — it is exactly `0` or has magnitude at
least `deadband` — so no Track-mode return value lies strictly between `0` and
`deadband` in magnitude. -/
theorem c7_deadband_return (cfg : InterpCfg) (s : InterpState) (r : Triple)
    (off conf : ℚ) (s2 : InterpState)
    (heq : Interpreter.process cfg s r = ((off, conf, Mode.track), s2)) :
    off = 0 ∨ cfg.deadband ≤ |off| := by
  simp only [Interpreter.process] at heq
  split_ifs at heq with h1 h2
  · simp at heq
  · simp at heq
  · simp only [Prod.mk.injEq] at heq
    obtain ⟨⟨hoff, -, -⟩, -⟩ := heq
    rw [← hoff]
    exact applyDeadband_cases _ _

/-- Witness for C7: the defaults, the initial state and the dark-line reading
`(30, 150, 150)`; the returned Track offset is `28000000000/80000000001 ≈ 0.35`. -/
theorem c7_deadband_return_witness :
    (28000000000/80000000001 : ℚ) = 0 ∨
      defaultInterpCfg.deadband ≤ |(28000000000/80000000001 : ℚ)| :=
  c7_deadband_return defaultInterpCfg initInterpState ⟨30, 150, 150⟩
    (28000000000/80000000001) 1 ⟨true, 28000000000/80000000001⟩
    (by norm_num [Interpreter.process, defaultInterpCfg, initInterpState, contrastOf,
      hystStep, muOf, scoreOf, weightsOf, ssumOf, applyDeadband, clamp, eps6, eps9,
      max_def, min_def, abs])

/-! ## Claim C8: Lost mode freezes and returns the stored offset -/

/-- A single `process` call that reports Lost returns the stored smoothed
offset and leaves it unchanged in the state. -/
lemma process_lost_frozen_step (cfg : InterpCfg) (s : InterpState) (r : Triple)
    (h : (Interpreter.process cfg s r).1.2.2 = Mode.lost) :
    (Interpreter.process cfg s r).1.1 = s.offsetEma ∧
      (Interpreter.process cfg s r).2.offsetEma = s.offsetEma := by
  simp only [Interpreter.process] at h ⊢
  split_ifs at h ⊢ with h1 h2
  · exact ⟨rfl, rfl⟩
  · exact ⟨rfl, rfl⟩

/-- Claim C8: along any run whose outputs are all Lost — by hysteresis or by
the near-zero evidence-sum fallback — every returned offset equals the stored
last smoothed offset of the starting state, and the stored smoothed offset is
never changed, so all consecutive Lost returns are identical. -/
theorem c8_lost_frozen (cfg : InterpCfg) (s : InterpState) (rs : List Triple)
    (h : ∀ out ∈ (Interpreter.processRun cfg s rs).1, out.2.2 = Mode.lost) :
    (∀ out ∈ (Interpreter.processRun cfg s rs).1, out.1 = s.offsetEma) ∧
      (Interpreter.processRun cfg s rs).2.offsetEma = s.offsetEma := by
  induction rs generalizing s with
  | nil =>
    refine ⟨?_, rfl⟩
    intro out hout
    simp [Interpreter.processRun] at hout
  | cons r rest ih =>
    simp only [Interpreter.processRun] at h ⊢
    have hhead : (Interpreter.process cfg s r).1.2.2 = Mode.lost :=
      h _ (List.mem_cons_self _ _)
    have hfroz := process_lost_frozen_step cfg s r hhead
    have htail : ∀ out ∈ (Interpreter.processRun cfg (Interpreter.process cfg s r).2 rest).1,
        out.2.2 = Mode.lost := fun out hout => h out (List.mem_cons_of_mem _ hout)
    have ihr := ih _ htail
    rw [hfroz.2] at ihr
    refine ⟨?_, ihr.2⟩
    intro out hout
    rcases List.mem_cons.1 hout with hh | hh
    · rw [hh]
      exact hfroz.1
    · exact ihr.1 out hh

/-- Witness for C8: two flat readings `(100,100,100)` (contrast 0, Lost) from
a state holding smoothed offset `1/2`; both returns equal `1/2` and the state
keeps `1/2`. -/
theorem c8_lost_frozen_witness :
    (∀ out ∈ (Interpreter.processRun defaultInterpCfg ⟨false, 1/2⟩
        [⟨100, 100, 100⟩, ⟨100, 100, 100⟩]).1,
      out.1 = (⟨false, 1/2⟩ : InterpState).offsetEma) ∧
      (Interpreter.processRun defaultInterpCfg ⟨false, 1/2⟩
        [⟨100, 100, 100⟩, ⟨100, 100, 100⟩]).2.offsetEma =
        (⟨false, 1/2⟩ : InterpState).offsetEma :=
  c8_lost_frozen defaultInterpCfg ⟨false, 1/2⟩ _
    (by norm_num [Interpreter.processRun, Interpreter.process, defaultInterpCfg,
      contrastOf, hystStep, clamp, max_def, min_def])

/-! ## Claim C2: hysteresis does not flap inside the band -/

/-- Three values are at least their maximum plus twice their minimum. -/
lemma max_add_two_min_le (x0 x1 x2 : ℚ) :
    max x0 (max x1 x2) + 2 * min x0 (min x1 x2) ≤ x0 + x1 + x2 := by
  have hm0 : min x0 (min x1 x2) ≤ x0 := min_le_left _ _
  have hm1 : min x0 (min x1 x2) ≤ x1 := le_trans (min_le_right _ _) (min_le_left _ _)
  have hm2 : min x0 (min x1 x2) ≤ x2 := le_trans (min_le_right _ _) (min_le_right _ _)
  rcases max_choice x0 (max x1 x2) with h | h <;> rw [h]
  · linarith
  · rcases max_choice x1 x2 with h2 | h2 <;> rw [h2] <;> linarith

/-- Three values are at most twice their maximum plus their minimum. -/
lemma le_two_max_add_min (x0 x1 x2 : ℚ) :
    x0 + x1 + x2 ≤ 2 * max x0 (max x1 x2) + min x0 (min x1 x2) := by
  have hM0 : x0 ≤ max x0 (max x1 x2) := le_max_left _ _
  have hM1 : x1 ≤ max x0 (max x1 x2) := le_trans (le_max_left _ _) (le_max_right _ _)
  have hM2 : x2 ≤ max x0 (max x1 x2) := le_trans (le_max_right _ _) (le_max_right _ _)
  rcases min_choice x0 (min x1 x2) with h | h <;> rw [h]
  · linarith
  · rcases min_choice x1 x2 with h2 | h2 <;> rw [h2] <;> linarith

/-- The minimum of three values is one of them. -/
lemma min3_choice (x0 x1 x2 : ℚ) :
    min x0 (min x1 x2) = x0 ∨ min x0 (min x1 x2) = x1 ∨ min x0 (min x1 x2) = x2 := by
  rcases min_choice x0 (min x1 x2) with h | h
  · exact Or.inl h
  · rcases min_choice x1 x2 with h2 | h2
    · exact Or.inr (Or.inl (h.trans h2))
    · exact Or.inr (Or.inr (h.trans h2))

/-- The maximum of three values is one of them. -/
lemma max3_choice (x0 x1 x2 : ℚ) :
    max x0 (max x1 x2) = x0 ∨ max x0 (max x1 x2) = x1 ∨ max x0 (max x1 x2) = x2 := by
  rcases max_choice x0 (max x1 x2) with h | h
  · exact Or.inl h
  · rcases max_choice x1 x2 with h2 | h2
    · exact Or.inr (Or.inl (h.trans h2))
    · exact Or.inr (Or.inr (h.trans h2))

/-- The contrast of a reading is at most three times the positive-evidence sum,
for either polarity: the channel farthest from the mean on the scored side
contributes at least a third of the contrast. -/
lemma contrast_le_three_ssum (p : Polarity) (r : Triple) :
    contrastOf r ≤ 3 * ssumOf p r := by
  obtain ⟨x0, x1, x2⟩ := r
  have hsum := max_add_two_min_le x0 x1 x2
  have hsum2 := le_two_max_add_min x0 x1 x2
  rcases p with _ | _
  · simp only [contrastOf, ssumOf, weightsOf, muOf, scoreOf]
    have hw0 : -(x0 - (x0 + x1 + x2) / 3) ≤ max 0 (-(x0 - (x0 + x1 + x2) / 3)) :=
      le_max_right _ _
    have hw1 : -(x1 - (x0 + x1 + x2) / 3) ≤ max 0 (-(x1 - (x0 + x1 + x2) / 3)) :=
      le_max_right _ _
    have hw2 : -(x2 - (x0 + x1 + x2) / 3) ≤ max 0 (-(x2 - (x0 + x1 + x2) / 3)) :=
      le_max_right _ _
    have hn0 : (0:ℚ) ≤ max 0 (-(x0 - (x0 + x1 + x2) / 3)) := le_max_left _ _
    have hn1 : (0:ℚ) ≤ max 0 (-(x1 - (x0 + x1 + x2) / 3)) := le_max_left _ _
    have hn2 : (0:ℚ) ≤ max 0 (-(x2 - (x0 + x1 + x2) / 3)) := le_max_left _ _
    rcases min3_choice x0 x1 x2 with h | h | h <;> rw [h] at hsum ⊢ <;> linarith
  · simp only [contrastOf, ssumOf, weightsOf, muOf, scoreOf]
    have hw0 : x0 - (x0 + x1 + x2) / 3 ≤ max 0 (x0 - (x0 + x1 + x2) / 3) :=
      le_max_right _ _
    have hw1 : x1 - (x0 + x1 + x2) / 3 ≤ max 0 (x1 - (x0 + x1 + x2) / 3) :=
      le_max_right _ _
    have hw2 : x2 - (x0 + x1 + x2) / 3 ≤ max 0 (x2 - (x0 + x1 + x2) / 3) :=
      le_max_right _ _
    have hn0 : (0:ℚ) ≤ max 0 (x0 - (x0 + x1 + x2) / 3) := le_max_left _ _
    have hn1 : (0:ℚ) ≤ max 0 (x1 - (x0 + x1 + x2) / 3) := le_max_left _ _
    have hn2 : (0:ℚ) ≤ max 0 (x2 - (x0 + x1 + x2) / 3) := le_max_left _ _
    rcases max3_choice x0 x1 x2 with h | h | h <;> rw [h] at hsum2 ⊢ <;> linarith

/-- While tracking, a reading whose contrast stays strictly above
`contrast_off ≥ 3e-6` keeps the interpreter in Track: the hysteresis keeps the
flag and the evidence sum stays at or above the `1e-6` fallback threshold. -/
lemma process_stay_track (cfg : InterpCfg) (s : InterpState) (r : Triple)
    (hoff : 3 * eps6 ≤ cfg.contrast_off) (htr : s.tracking = true)
    (hlo : cfg.contrast_off < contrastOf r) :
    (Interpreter.process cfg s r).1.2.2 = Mode.track ∧
      (Interpreter.process cfg s r).2.tracking = true := by
  have hhyst : hystStep cfg s.tracking (contrastOf r) = true := by
    rw [htr]
    simp only [hystStep]
    rw [if_neg (not_lt.2 hlo.le)]
  have hssum : ¬ ssumOf cfg.polarity r < eps6 := by
    have h3 := contrast_le_three_ssum cfg.polarity r
    rw [not_lt]
    linarith
  simp only [Interpreter.process, hhyst]
  rw [if_neg (by simp : ¬(true = false)), if_neg hssum]
  exact ⟨rfl, rfl⟩

/-- Claim C2, amended: for every configuration with
`3e-6 ≤ contrast_off < contrast_on`, once the estimator is in Track, any run
of filtered samples whose contrasts lie strictly between `contrast_off` and
`contrast_on` keeps every output in Track and leaves the tracking flag set.
(For `0 < contrast_off < 3e-6` the `1e-6` evidence-sum fallback can force
Lost inside the band.) -/
theorem c2_no_flap (cfg : InterpCfg) (s : InterpState) (rs : List Triple)
    (hoff : 3 * eps6 ≤ cfg.contrast_off) (htr : s.tracking = true)
    (hrs : ∀ r ∈ rs, cfg.contrast_off < contrastOf r ∧ contrastOf r < cfg.contrast_on) :
    (∀ out ∈ (Interpreter.processRun cfg s rs).1, out.2.2 = Mode.track) ∧
      (Interpreter.processRun cfg s rs).2.tracking = true := by
  induction rs generalizing s with
  | nil =>
    refine ⟨?_, htr⟩
    intro out hout
    simp [Interpreter.processRun] at hout
  | cons r rest ih =>
    have hr := hrs r (List.mem_cons_self _ _)
    have hstep := process_stay_track cfg s r hoff htr hr.1
    have ihr := ih (Interpreter.process cfg s r).2 hstep.2
      (fun r2 h2 => hrs r2 (List.mem_cons_of_mem _ h2))
    simp only [Interpreter.processRun]
    refine ⟨?_, ihr.2⟩
    intro out hout
    rcases List.mem_cons.1 hout with hh | hh
    · rw [hh]
      exact hstep.1
    · exact ihr.1 out hh

/-- Witness for C2: defaults (`contrast_off = 55`), a tracking state, and one
sample of contrast `70` inside the band `(55, 90)`. -/
theorem c2_no_flap_witness :
    (∀ out ∈ (Interpreter.processRun defaultInterpCfg ⟨true, 0⟩ [⟨0, 70, 70⟩]).1,
      out.2.2 = Mode.track) ∧
      (Interpreter.processRun defaultInterpCfg ⟨true, 0⟩ [⟨0, 70, 70⟩]).2.tracking = true :=
  c2_no_flap defaultInterpCfg ⟨true, 0⟩ [⟨0, 70, 70⟩]
    (by norm_num [eps6, defaultInterpCfg]) rfl
    (by norm_num [contrastOf, defaultInterpCfg, max_def, min_def])

/-- A configuration with a positive but tiny `contrast_off`, below the reach of
the interpreter's `1e-6` evidence-sum guard. -/
def cfgTiny : InterpCfg :=
  { polarity := Polarity.dark
    deadband := 6/100
    contrast_on := 1
    contrast_off := 1/10000000
    offset_alpha := 7/20 }

/-- Claim C2, counterexample: with `0 < contrast_off = 1e-7 < contrast_on = 1`,
enter Track on `(0, 1, 1)`; the next sample `(0, 2e-7, 2e-7)` has contrast
`2e-7` strictly inside the hysteresis band, yet its evidence sum `≈1.33e-7`
falls below the `1e-6` guard and the estimator transitions to Lost. -/
theorem c2_eps_counterexample :
    (0 < cfgTiny.contrast_off ∧ cfgTiny.contrast_off < cfgTiny.contrast_on) ∧
      (Interpreter.process cfgTiny initInterpState ⟨0, 1, 1⟩).2.tracking = true ∧
      (cfgTiny.contrast_off < contrastOf ⟨0, 2/10000000, 2/10000000⟩ ∧
        contrastOf ⟨0, 2/10000000, 2/10000000⟩ < cfgTiny.contrast_on) ∧
      (Interpreter.process cfgTiny
          (Interpreter.process cfgTiny initInterpState ⟨0, 1, 1⟩).2
          ⟨0, 2/10000000, 2/10000000⟩).1.2.2 = Mode.lost := by
  refine ⟨⟨by norm_num [cfgTiny], by norm_num [cfgTiny]⟩, ?_,
    ⟨by norm_num [cfgTiny, contrastOf, max_def, min_def],
     by norm_num [cfgTiny, contrastOf, max_def, min_def]⟩, ?_⟩ <;>
    norm_num [Interpreter.process, cfgTiny, initInterpState, contrastOf, hystStep,
      muOf, scoreOf, weightsOf, ssumOf, applyDeadband, clamp, eps6, eps9,
      max_def, min_def, abs]

/-! ## Claim C6: offset sign convention -/

/-- The Track branch of `process` written out: the returned tuple under the
hysteresis and evidence-sum guards. -/
lemma process_track_val (cfg : InterpCfg) (s : InterpState) (r : Triple)
    (hhyst : hystStep cfg s.tracking (contrastOf r) = true)
    (hssum : ¬ ssumOf cfg.polarity r < eps6) :
    Interpreter.process cfg s r =
      ((applyDeadband cfg.deadband ((1 - cfg.offset_alpha) * s.offsetEma +
          cfg.offset_alpha * applyDeadband cfg.deadband
            (clamp (((weightsOf cfg.polarity r).1 * 1 + (weightsOf cfg.polarity r).2.1 * 0 +
              (weightsOf cfg.polarity r).2.2 * (-1)) / (ssumOf cfg.polarity r + eps9)) (-1) 1)),
        clamp ((contrastOf r - cfg.contrast_off) / (cfg.contrast_on - cfg.contrast_off)) 0 1,
        Mode.track),
       ⟨true, applyDeadband cfg.deadband ((1 - cfg.offset_alpha) * s.offsetEma +
          cfg.offset_alpha * applyDeadband cfg.deadband
            (clamp (((weightsOf cfg.polarity r).1 * 1 + (weightsOf cfg.polarity r).2.1 * 0 +
              (weightsOf cfg.polarity r).2.2 * (-1)) / (ssumOf cfg.polarity r + eps9)) (-1) 1))⟩) := by
  simp only [Interpreter.process, hhyst]
  rw [if_neg (by simp : ¬(true = false)), if_neg hssum]

/-- With all evidence `c ≥ 60` on the left channel and a zero smoothing state,
the clamp, both deadbands and the smoother leave a strictly positive offset. -/
lemma deadband_smooth_pos (c : ℚ) (hc : 60 ≤ c) :
    0 < applyDeadband (6/100) ((1 - 7/20) * 0 + 7/20 *
      applyDeadband (6/100) (clamp (c / (c + eps9)) (-1) 1)) := by
  have heps : (0:ℚ) < eps9 := by norm_num [eps9]
  have heps2 : eps9 ≤ 1 := by norm_num [eps9]
  have hden : (0:ℚ) < c + eps9 := by linarith
  have hq0 : 0 < c / (c + eps9) := div_pos (by linarith) hden
  have hq1 : c / (c + eps9) ≤ 1 := by
    rw [div_le_one hden]
    linarith
  have hqh : 1/2 ≤ c / (c + eps9) := by
    rw [le_div_iff₀ hden]
    linarith
  have hclamp : clamp (c / (c + eps9)) (-1) 1 = c / (c + eps9) := by
    unfold clamp
    rw [min_eq_right hq1, max_eq_right (by linarith)]
  rw [hclamp]
  have hdb1 : applyDeadband (6/100) (c / (c + eps9)) = c / (c + eps9) := by
    unfold applyDeadband
    rw [if_neg (not_lt.2 (by rw [abs_of_pos hq0]; linarith))]
  rw [hdb1]
  have hval : (1 - 7/20) * 0 + 7/20 * (c / (c + eps9)) = 7/20 * (c / (c + eps9)) := by
    ring
  rw [hval]
  have hvpos : 0 < (7/20 : ℚ) * (c / (c + eps9)) := by positivity
  unfold applyDeadband
  rw [if_neg (not_lt.2 (by rw [abs_of_pos hvpos]; linarith))]
  exact hvpos

/-- Mirror image of `deadband_smooth_pos`: all evidence on the right channel
produces a strictly negative offset. -/
lemma deadband_smooth_neg (c : ℚ) (hc : 60 ≤ c) :
    applyDeadband (6/100) ((1 - 7/20) * 0 + 7/20 *
      applyDeadband (6/100) (clamp (-c / (c + eps9)) (-1) 1)) < 0 := by
  have heps : (0:ℚ) < eps9 := by norm_num [eps9]
  have heps2 : eps9 ≤ 1 := by norm_num [eps9]
  have hden : (0:ℚ) < c + eps9 := by linarith
  have hq0 : -c / (c + eps9) < 0 := div_neg_of_neg_of_pos (by linarith) hden
  have hqge : (-1:ℚ) ≤ -c / (c + eps9) := by
    rw [le_div_iff₀ hden]
    linarith
  have hqh : -c / (c + eps9) ≤ -(1/2) := by
    rw [div_le_iff₀ hden]
    linarith
  have hclamp : clamp (-c / (c + eps9)) (-1) 1 = -c / (c + eps9) := by
    unfold clamp
    rw [min_eq_right (by linarith), max_eq_right hqge]
  rw [hclamp]
  have hdb1 : applyDeadband (6/100) (-c / (c + eps9)) = -c / (c + eps9) := by
    unfold applyDeadband
    rw [if_neg (not_lt.2 (by rw [abs_of_neg hq0]; linarith))]
  rw [hdb1]
  have hval : (1 - 7/20) * 0 + 7/20 * (-c / (c + eps9)) = 7/20 * (-c / (c + eps9)) := by
    ring
  rw [hval]
  have hvneg : (7/20 : ℚ) * (-c / (c + eps9)) < 0 :=
    mul_neg_of_pos_of_neg (by norm_num) hq0
  unfold applyDeadband
  rw [if_neg (not_lt.2 (by rw [abs_of_neg hvneg]; linarith))]
  exact hvneg

/-- Claim C6: with polarity `dark` and the defaults, entering Track from the
initial state on a reading whose leftmost channel reads the dark line —
`(x0, x1, x1)` with `x1 - x0 ≥ contrast_on = 90` — returns a strictly positive
offset; the mirror reading `(x1, x1, x2)` with `x1 - x2 ≥ 90` returns a
strictly negative offset. -/
theorem c6_offset_sign (x0 x1 x2 : ℚ) (hL : x0 + 90 ≤ x1) (hR : x2 + 90 ≤ x1) :
    (0 < (Interpreter.process defaultInterpCfg initInterpState ⟨x0, x1, x1⟩).1.1 ∧
      (Interpreter.process defaultInterpCfg initInterpState ⟨x0, x1, x1⟩).1.2.2 =
        Mode.track) ∧
    ((Interpreter.process defaultInterpCfg initInterpState ⟨x1, x1, x2⟩).1.1 < 0 ∧
      (Interpreter.process defaultInterpCfg initInterpState ⟨x1, x1, x2⟩).1.2.2 =
        Mode.track) := by
  -- left-skewed reading
  have hconL : contrastOf ⟨x0, x1, x1⟩ = x1 - x0 := by
    simp only [contrastOf]
    rw [max_self, min_self, max_eq_right (by linarith : x0 ≤ x1),
      min_eq_left (by linarith : x0 ≤ x1)]
  have hhystL : hystStep defaultInterpCfg initInterpState.tracking
      (contrastOf ⟨x0, x1, x1⟩) = true := by
    rw [hconL]
    simp only [initInterpState, hystStep, defaultInterpCfg]
    rw [if_pos (by linarith : (90:ℚ) ≤ x1 - x0)]
  have hwL : weightsOf Polarity.dark ⟨x0, x1, x1⟩ = (2 * (x1 - x0) / 3, 0, 0) := by
    simp only [weightsOf, scoreOf, muOf, Prod.mk.injEq]
    refine ⟨?_, ?_, ?_⟩
    · rw [max_eq_right (by linarith)]
      ring
    · rw [max_eq_left (by linarith)]
    · rw [max_eq_left (by linarith)]
  have hsL : ssumOf Polarity.dark ⟨x0, x1, x1⟩ = 2 * (x1 - x0) / 3 := by
    simp only [ssumOf, hwL, add_zero]
  have hssumL : ¬ ssumOf defaultInterpCfg.polarity (⟨x0, x1, x1⟩ : Triple) < eps6 := by
    have he : ssumOf defaultInterpCfg.polarity (⟨x0, x1, x1⟩ : Triple) =
        2 * (x1 - x0) / 3 := hsL
    rw [he, not_lt, show eps6 = 1/1000000 from rfl]
    linarith
  -- right-skewed reading
  have hconR : contrastOf ⟨x1, x1, x2⟩ = x1 - x2 := by
    simp only [contrastOf]
    rw [max_eq_left (by linarith : x2 ≤ x1), max_self,
      min_eq_right (by linarith : x2 ≤ x1), min_eq_right (by linarith : x2 ≤ x1)]
  have hhystR : hystStep defaultInterpCfg initInterpState.tracking
      (contrastOf ⟨x1, x1, x2⟩) = true := by
    rw [hconR]
    simp only [initInterpState, hystStep, defaultInterpCfg]
    rw [if_pos (by linarith : (90:ℚ) ≤ x1 - x2)]
  have hwR : weightsOf Polarity.dark ⟨x1, x1, x2⟩ = (0, 0, 2 * (x1 - x2) / 3) := by
    simp only [weightsOf, scoreOf, muOf, Prod.mk.injEq]
    refine ⟨?_, ?_, ?_⟩
    · rw [max_eq_left (by linarith)]
    · rw [max_eq_left (by linarith)]
    · rw [max_eq_right (by linarith)]
      ring
  have hsR : ssumOf Polarity.dark ⟨x1, x1, x2⟩ = 2 * (x1 - x2) / 3 := by
    simp only [ssumOf, hwR, add_zero, zero_add]
  have hssumR : ¬ ssumOf defaultInterpCfg.polarity (⟨x1, x1, x2⟩ : Triple) < eps6 := by
    have he : ssumOf defaultInterpCfg.polarity (⟨x1, x1, x2⟩ : Triple) =
        2 * (x1 - x2) / 3 := hsR
    rw [he, not_lt, show eps6 = 1/1000000 from rfl]
    linarith
  refine ⟨⟨?_, ?_⟩, ?_, ?_⟩
  · rw [process_track_val _ _ _ hhystL hssumL]
    simp only [defaultInterpCfg, initInterpState]
    rw [hwL, hsL]
    rw [show (2 * (x1 - x0) / 3 * 1 + 0 * 0 + 0 * (-1) : ℚ) = 2 * (x1 - x0) / 3 from by ring]
    exact deadband_smooth_pos (2 * (x1 - x0) / 3) (by linarith)
  · rw [process_track_val _ _ _ hhystL hssumL]
  · rw [process_track_val _ _ _ hhystR hssumR]
    simp only [defaultInterpCfg, initInterpState]
    rw [hwR, hsR]
    rw [show (0 * 1 + 0 * 0 + 2 * (x1 - x2) / 3 * (-1) : ℚ) =
      -(2 * (x1 - x2) / 3) from by ring]
    exact deadband_smooth_neg (2 * (x1 - x2) / 3) (by linarith)
  · rw [process_track_val _ _ _ hhystR hssumR]

/-- Witness for C6 at the spec's end-to-end scenario readings `(30, 150, 150)`
and `(150, 150, 30)`. -/
theorem c6_offset_sign_witness :
    (0 < (Interpreter.process defaultInterpCfg initInterpState ⟨30, 150, 150⟩).1.1 ∧
      (Interpreter.process defaultInterpCfg initInterpState ⟨30, 150, 150⟩).1.2.2 =
        Mode.track) ∧
    ((Interpreter.process defaultInterpCfg initInterpState ⟨150, 150, 30⟩).1.1 < 0 ∧
      (Interpreter.process defaultInterpCfg initInterpState ⟨150, 150, 30⟩).1.2.2 =
        Mode.track) :=
  c6_offset_sign 30 150 30 (by norm_num) (by norm_num)

end LFS
